import Mathlib

/-
  Verification of the field-extraction and session-aggregation core of the
  balance-due app (src/app.py).  Text is modelled as `List Char`; Python
  exceptions are modelled with `Except PyErr`; currency amounts are modelled
  as exact rationals.
-/

namespace BalanceApp

/-! ## Character classes (Python `re` semantics, ASCII fragment) -/

def isDigitC (c : Char) : Bool := 48 ≤ c.toNat && c.toNat ≤ 57

def isSpaceC (c : Char) : Bool := c.toNat = 32 || (9 ≤ c.toNat && c.toNat ≤ 13)

def isWordC (c : Char) : Bool :=
  isDigitC c || (65 ≤ c.toNat && c.toNat ≤ 90) || (97 ≤ c.toNat && c.toNat ≤ 122)
    || c.toNat = 95

def toLowerC (c : Char) : Char :=
  if 65 ≤ c.toNat && c.toNat ≤ 90 then Char.ofNat (c.toNat + 32) else c

def digitVal (c : Char) : Nat := c.toNat - 48

/-! ## List-of-char utilities (Python string operations) -/

/-- Python `str.strip()`: drop leading and trailing whitespace. -/
def pyStrip (l : List Char) : List Char :=
  ((l.dropWhile isSpaceC).reverse.dropWhile isSpaceC).reverse

/-- Python `str.replace(a, b)` for single characters. -/
def replaceChar (a b : Char) (l : List Char) : List Char :=
  l.map (fun c => if c = a then b else c)

/-- Split on every character satisfying `p` (each occurrence is a separator). -/
def splitOnP (p : Char → Bool) : List Char → List (List Char)
  | [] => [[]]
  | c :: cs =>
      let r := splitOnP p cs
      if p c then [] :: r
      else
        match r with
        | [] => [[c]]
        | h :: t => (c :: h) :: t

/-- Python `str.split("/")` (single-char separator, keeps empty pieces). -/
def splitOnChar (sep : Char) (l : List Char) : List (List Char) :=
  splitOnP (fun c => c = sep) l

/-- Python `re.split(r"\s+", s)` on a stripped string, and Python `str.split()`:
    the nonempty maximal runs of non-whitespace characters. -/
def splitWs (l : List Char) : List (List Char) :=
  (splitOnP isSpaceC l).filter (· ≠ [])

/-- Python `sep.join(parts)`. -/
def pyJoin (sep : List Char) : List (List Char) → List Char
  | [] => []
  | [x] => x
  | x :: y :: t => x ++ sep ++ pyJoin sep (y :: t)

/-! ## Numeric parsing (Python `int()` and `float()` on captured substrings) -/

def natOfDigits (l : List Char) : Nat :=
  l.foldl (fun a c => a * 10 + digitVal c) 0

/-- Digits of a Python int literal after the first one: digits with single
    underscores allowed between digits. -/
def pyIntCore : Nat → List Char → Option Nat
  | acc, [] => some acc
  | acc, c :: rest =>
      if c = '_' then
        match rest with
        | [] => none
        | c2 :: r2 =>
            if isDigitC c2 then pyIntCore (acc * 10 + digitVal c2) r2 else none
      else if isDigitC c then pyIntCore (acc * 10 + digitVal c) rest else none

def pyIntNat (l : List Char) : Option Nat :=
  match l with
  | [] => none
  | c :: rest => if isDigitC c then pyIntCore (digitVal c) rest else none

/-- Python `int(s)`: optional sign, decimal digits; `ValueError` is `none`. -/
def pyInt (s : List Char) : Option Int :=
  match pyStrip s with
  | [] => none
  | c :: r =>
      if c = '-' then (pyIntNat r).map (fun n => -(n : Int))
      else if c = '+' then (pyIntNat r).map (fun n => (n : Int))
      else (pyIntNat (c :: r)).map (fun n => (n : Int))

/-- The sign and the integer/fraction digit strings of a parsed float. -/
structure FloatParts where
  neg : Bool
  ip : List Char
  fp : List Char
deriving DecidableEq, Repr

/-- The digits after an optional decimal point: `ip [ . fp ]`, at least one
    digit overall, nothing left over. -/
def floatCore (t : List Char) : Option (List Char × List Char) :=
  let ip := t.takeWhile isDigitC
  let r1 := t.dropWhile isDigitC
  match r1 with
  | [] => if ip = [] then none else some (ip, [])
  | '.' :: r2 =>
      let fp := r2.takeWhile isDigitC
      let r3 := r2.dropWhile isDigitC
      if r3 = [] ∧ (ip ≠ [] ∨ fp ≠ []) then some (ip, fp) else none
  | _ => none

/-- Syntactic part of Python `float(s)` on the character set reachable from
    the extractors (sign, digits, one decimal point). -/
def pyFloatParse (s : List Char) : Option FloatParts :=
  match s with
  | '-' :: t => (floatCore t).map (fun p => ⟨true, p.1, p.2⟩)
  | '+' :: t => (floatCore t).map (fun p => ⟨false, p.1, p.2⟩)
  | t => (floatCore t).map (fun p => ⟨false, p.1, p.2⟩)

/-- The rational value of a parsed float. -/
def partsVal (p : FloatParts) : ℚ :=
  (cond p.neg (-1) 1) *
    ((natOfDigits p.ip : ℚ) + (natOfDigits p.fp : ℚ) / (10 : ℚ) ^ p.fp.length)

/-- Python `float(s)`; `ValueError` is `none`. -/
def pyFloat (s : List Char) : Option ℚ :=
  (pyFloatParse s).map partsVal

/-! ## Python exceptions -/

inductive PyErr where
  | valueError
  | overflowError
deriving DecidableEq, Repr

abbrev PyResult (α : Type) := Except PyErr α

instance {ε α : Type} [DecidableEq ε] [DecidableEq α] : DecidableEq (Except ε α) :=
  fun a b =>
    match a, b with
    | .ok x, .ok y =>
        if h : x = y then .isTrue (by rw [h]) else .isFalse (by simp [h])
    | .error x, .error y =>
        if h : x = y then .isTrue (by rw [h]) else .isFalse (by simp [h])
    | .ok _, .error _ => .isFalse (by simp)
    | .error _, .ok _ => .isFalse (by simp)

/-! ## Calendar (Python `datetime.date`) -/

structure Date where
  year : Int
  month : Int
  day : Int
deriving DecidableEq, Repr

def isLeap (y : Int) : Bool :=
  y % 4 = 0 && (y % 100 ≠ 0 || y % 400 = 0)

def daysInMonth (m y : Int) : Int :=
  if m = 2 then (if isLeap y then 29 else 28)
  else if m = 4 ∨ m = 6 ∨ m = 9 ∨ m = 11 then 30
  else 31

/-- Python `datetime(year, month, day)`: arguments that do not fit in a C int
    raise `OverflowError`; out-of-range year/month/day raise `ValueError`. -/
def mkDatetime (y m d : Int) : PyResult Date :=
  if 2147483647 < y ∨ y < -2147483648 ∨ 2147483647 < m ∨ m < -2147483648
      ∨ 2147483647 < d ∨ d < -2147483648 then
    .error .overflowError
  else if 1 ≤ y ∧ y ≤ 9999 ∧ 1 ≤ m ∧ m ≤ 12 ∧ 1 ≤ d ∧ d ≤ daysInMonth m y then
    .ok ⟨y, m, d⟩
  else
    .error .valueError

/-- Python `date` comparison is lexicographic on (year, month, day). -/
def dateLe (a b : Date) : Prop :=
  a.year < b.year ∨ (a.year = b.year ∧
    (a.month < b.month ∨ (a.month = b.month ∧ a.day ≤ b.day)))

def dateLt (a b : Date) : Prop :=
  a.year < b.year ∨ (a.year = b.year ∧
    (a.month < b.month ∨ (a.month = b.month ∧ a.day < b.day)))

instance (a b : Date) : Decidable (dateLe a b) := by
  unfold dateLe; infer_instance

instance (a b : Date) : Decidable (dateLt a b) := by
  unfold dateLt; infer_instance

theorem dateLe_of_not_dateLt {a b : Date} (h : ¬ dateLt b a) : dateLe a b := by
  unfold dateLt at h
  unfold dateLe
  omega

/-- Python `datetime.strptime(s, "%m/%d/%y").date()` on the 8-character
    captures of the load-row regex.  `%y` uses the POSIX pivot:
    00-68 means 2000-2068, 69-99 means 1969-1999.  An invalid month/day
    raises `ValueError`, which the caller catches; here that is `none`. -/
def strptime_mdy (s : List Char) : Option Date :=
  match s with
  | [m1, m2, '/', d1, d2, '/', y1, y2] =>
      if isDigitC m1 && isDigitC m2 && isDigitC d1 && isDigitC d2
          && isDigitC y1 && isDigitC y2 then
        let m : Int := (10 * digitVal m1 + digitVal m2 : Nat)
        let d : Int := (10 * digitVal d1 + digitVal d2 : Nat)
        let yy : Nat := 10 * digitVal y1 + digitVal y2
        let y : Int := if yy ≤ 68 then (2000 + yy : Nat) else (1900 + yy : Nat)
        if 1 ≤ m ∧ m ≤ 12 ∧ 1 ≤ d ∧ d ≤ daysInMonth m y then some ⟨y, m, d⟩
        else none
      else none
  | _ => none

/-! ## Regex machinery

Each extraction pattern of src/app.py is modelled by a hand-rolled matcher over
`List Char` reproducing the leftmost-match semantics of `re.search`.  A word
boundary needs the character before the current position, so matchers receive
it as `prev`. -/

/-- `\b` before a word character: previous char absent or not a word char. -/
def boundaryOk (prev : Option Char) : Bool :=
  match prev with
  | none => true
  | some c => !(isWordC c)

/-- `\b` after a word character: next char absent or not a word char. -/
def headNonWord : List Char → Bool
  | [] => true
  | c :: _ => !(isWordC c)

/-- Case-insensitive literal match (pattern given lowercase); returns rest. -/
def matchCI : List Char → List Char → Option (List Char)
  | [], s => some s
  | _ :: _, [] => none
  | p :: ps, c :: cs => if toLowerC c = p then matchCI ps cs else none

/-- `\s*` splitting off the consumed run: (spaces, rest). -/
def takeSpaces (l : List Char) : List Char × List Char :=
  (l.takeWhile isSpaceC, l.dropWhile isSpaceC)

/-- An optional literal character (`x?`): (matched, rest). -/
def tryCharB (ch : Char) : List Char → Bool × List Char
  | [] => (false, [])
  | c :: cs => if c = ch then (true, cs) else (false, c :: cs)

/-- `re.search` scanning: try the matcher at each position left to right. -/
def scanText {α : Type} (m : Option Char → List Char → Option α) :
    Option Char → List Char → Option α
  | prev, [] => m prev []
  | prev, c :: rest =>
      match m prev (c :: rest) with
      | some r => some r
      | none => scanText m (some c) rest

/-- Scanning for the continuation of a lazy `.*?`: `.` does not cross `\n`. -/
def scanNoNL {α : Type} (m : Option Char → List Char → Option α) :
    Option Char → List Char → Option α
  | prev, [] => m prev []
  | prev, c :: rest =>
      match m prev (c :: rest) with
      | some r => some r
      | none => if c = '\n' then none else scanNoNL m (some c) rest

/-- `[0-9]{1,3}` (greedy; trailing context is all-optional, so no backtrack). -/
def digitsUpTo3 (l : List Char) : Option (List Char × List Char) :=
  let t := l.takeWhile isDigitC
  if t = [] then none
  else if t.length ≤ 3 then some (t, l.dropWhile isDigitC)
  else some (t.take 3, l.drop 3)

/-- `(?:,[0-9]{3})*` (greedy star of comma plus exactly three digits). -/
def commaGroups : List Char → List Char × List Char
  | ',' :: a :: b :: c :: rest =>
      if isDigitC a && isDigitC b && isDigitC c then
        let r := commaGroups rest
        (',' :: a :: b :: c :: r.1, r.2)
      else ([], ',' :: a :: b :: c :: rest)
  | l => ([], l)

/-- `(?:\.[0-9]{2})?` (optional dot plus exactly two digits). -/
def decimalPart : List Char → List Char × List Char
  | '.' :: a :: b :: rest =>
      if isDigitC a && isDigitC b then (['.', a, b], rest)
      else ([], '.' :: a :: b :: rest)
  | l => ([], l)

/-- `[0-9]{1,3}(?:,[0-9]{3})*(?:\.[0-9]{2})?` returning (captured, rest). -/
def amountPat (l : List Char) : Option (List Char × List Char) :=
  match digitsUpTo3 l with
  | none => none
  | some (d3, r1) =>
      let cg := commaGroups r1
      let dp := decimalPart cg.2
      some (d3 ++ cg.1 ++ dp.1, dp.2)

/-! ### BALANCE_DUE_REGEX (src/app.py lines 20-28) -/

structure BalG where
  popen : Bool
  sign : Bool
  amount : List Char
  pclose : Bool
deriving DecidableEq, Repr

def matchBalanceAt (prev : Option Char) (s : List Char) : Option BalG :=
  if boundaryOk prev then
    match matchCI ['b', 'a', 'l', 'a', 'n', 'c', 'e'] s with
    | none => none
    | some r1 =>
        let sp := takeSpaces r1
        if sp.1 = [] then none
        else
          match matchCI ['d', 'u', 'e'] sp.2 with
          | none => none
          | some r2 =>
              if headNonWord r2 then
                match (takeSpaces r2).2 with
                | ':' :: r4 =>
                    let r5 := (takeSpaces r4).2
                    let po := tryCharB '(' r5
                    let r6 := (takeSpaces po.2).2
                    let sg := tryCharB '-' r6
                    let r7 := (takeSpaces sg.2).2
                    let dl := tryCharB '$' r7
                    let r8 := (takeSpaces dl.2).2
                    match amountPat r8 with
                    | none => none
                    | some (amt, r9) =>
                        let r10 := (takeSpaces r9).2
                        let pc := tryCharB ')' r10
                        some ⟨po.1, sg.1, amt, pc.1⟩
                | _ => none
              else none
  else none

/-! ### SUBTOTAL_EMPTY_LOADED_REGEX (src/app.py lines 30-33) -/

def matchMilesAt (prev : Option Char) (s : List Char) : Option (Nat × Nat) :=
  if boundaryOk prev then
    match matchCI ['s', 'u', 'b', 't', 'o', 't', 'a', 'l'] s with
    | none => none
    | some r1 =>
        match (takeSpaces r1).2 with
        | ':' :: r2 =>
            let r3 := (takeSpaces r2).2
            let g1 := r3.takeWhile isDigitC
            let r4 := r3.dropWhile isDigitC
            if 1 ≤ g1.length ∧ g1.length ≤ 6 then
              let sp := takeSpaces r4
              if sp.1 = [] then none
              else
                let g2 := sp.2.takeWhile isDigitC
                let r5 := sp.2.dropWhile isDigitC
                if (1 ≤ g2.length ∧ g2.length ≤ 6) ∧ headNonWord r5 then
                  some (natOfDigits g1, natOfDigits g2)
                else none
            else none
        | _ => none
  else none

/-! ### TOLLS_SUBTOTAL_REGEX and DEDUCTIONS_SUBTOTAL_REGEX
    (src/app.py lines 39-48) -/

/-- The captured signed/parenthesized amount group
    `(\(?-?\$?\s*[0-9]{1,3}(?:,[0-9]{3})*(?:\.[0-9]{2})?\)?)`. -/
def matchAmtGroup (s : List Char) : Option (List Char) :=
  let po := tryCharB '(' s
  let sg := tryCharB '-' po.2
  let dl := tryCharB '$' sg.2
  let sp := takeSpaces dl.2
  match amountPat sp.2 with
  | none => none
  | some (amt, r) =>
      let pc := tryCharB ')' r
      some ((cond po.1 ['('] []) ++ (cond sg.1 ['-'] []) ++ (cond dl.1 ['$'] [])
        ++ sp.1 ++ amt ++ (cond pc.1 [')'] []))

/-- `\bSubtotal\b\s*(group)` or, with `needColon`, `\bSubtotal\b\s*:\s*(group)`. -/
def matchSubAmtAt (needColon : Bool) (prev : Option Char) (s : List Char) :
    Option (List Char) :=
  if boundaryOk prev then
    match matchCI ['s', 'u', 'b', 't', 'o', 't', 'a', 'l'] s with
    | none => none
    | some r1 =>
        if headNonWord r1 then
          let r2 := (takeSpaces r1).2
          if needColon then
            match r2 with
            | ':' :: r3 => matchAmtGroup (takeSpaces r3).2
            | _ => none
          else matchAmtGroup r2
        else none
  else none

/-- `\bTolls\b.*?\bSubtotal\b\s*(group)`.  After the label the lazy `.*?`
    looks for the earliest matching subtotal; the character before that
    continuation is the final (word) letter of the label, so any word
    character serves for the boundary test. -/
def matchTollsAt (prev : Option Char) (s : List Char) : Option (List Char) :=
  if boundaryOk prev then
    match matchCI ['t', 'o', 'l', 'l', 's'] s with
    | none => none
    | some r1 =>
        if headNonWord r1 then scanNoNL (matchSubAmtAt false) (some 's') r1
        else none
  else none

/-- `\bDeductions\b.*?\bSubtotal\b\s*:\s*(group)`. -/
def matchDeductionsAt (prev : Option Char) (s : List Char) : Option (List Char) :=
  if boundaryOk prev then
    match matchCI ['d', 'e', 'd', 'u', 'c', 't', 'i', 'o', 'n', 's'] s with
    | none => none
    | some r1 =>
        if headNonWord r1 then scanNoNL (matchSubAmtAt true) (some 's') r1
        else none
  else none

/-! ### LOAD_ROW_PICKUP_DELIVERY_REGEX (src/app.py lines 35-37) -/

/-- `\d{2}/\d{2}/\d{2}` exactly, returning (captured 8 chars, rest). -/
def dateShape : List Char → Option (List Char × List Char)
  | a :: b :: '/' :: c :: d :: '/' :: e :: f :: rest =>
      if isDigitC a && isDigitC b && isDigitC c && isDigitC d
          && isDigitC e && isDigitC f then
        some ([a, b, '/', c, d, '/', e, f], rest)
      else none
  | _ => none

/-- `\b\d{4,6}\s+(pickup)\s+(delivery)\b`; returns the pickup capture, the
    final consumed character and the rest of the text after the match. -/
def matchLoadAt (prev : Option Char) (s : List Char) :
    Option (List Char × Char × List Char) :=
  if boundaryOk prev then
    let run := s.takeWhile isDigitC
    if 4 ≤ run.length ∧ run.length ≤ 6 then
      let r1 := s.dropWhile isDigitC
      let sp := takeSpaces r1
      if sp.1 = [] then none
      else
        match dateShape sp.2 with
        | none => none
        | some (pick, r2) =>
            let sp2 := takeSpaces r2
            if sp2.1 = [] then none
            else
              match dateShape sp2.2 with
              | none => none
              | some (del, r3) =>
                  if headNonWord r3 then
                    some (pick, del.getLastD '0', r3)
                  else none
    else none
  else none

/-- `re.finditer` for load rows: scan left to right, resume after each match. -/
def findPickupsGo : Nat → Option Char → List Char → List (List Char)
  | 0, _, _ => []
  | fuel + 1, prev, s =>
      match matchLoadAt prev s with
      | some (pick, last, rest) => pick :: findPickupsGo fuel (some last) rest
      | none =>
          match s with
          | [] => []
          | c :: r => findPickupsGo fuel (some c) r

/-! ## signed_money_to_float (src/app.py lines 710-715)

Python `float` raises `ValueError` on an unparseable string; that outcome is
`none` here and callers decide whether it is caught. -/

/-- The character transformations of `signed_money_to_float`: strip
    whitespace, delete spaces, turn a wholly parenthesized value into a
    negated one, delete currency symbols and thousands separators. -/
def moneyChars (s : List Char) : List Char :=
  let s1 := (pyStrip s).filter (fun c => c ≠ ' ')
  let s2 :=
    if s1.head? = some '(' ∧ s1.getLast? = some ')' then
      '-' :: (s1.drop 1).dropLast
    else s1
  s2.filter (fun c => c ≠ '$' ∧ c ≠ ',')

def signed_money_to_float (s : List Char) : Option ℚ :=
  pyFloat (moneyChars s)

/-! ## Text normalization (src/app.py lines 702-708)

`extract_text_from_bytes` joins the page texts with spaces and collapses all
whitespace runs: `" ".join(" ".join(text_parts).split())`.  The raw per-page
texts come from the out-of-scope PDF library, so a document is modelled by
its list of page texts. -/

def normalizeText (pages : List (List Char)) : List Char :=
  pyJoin [' '] (splitWs (pyJoin [' '] pages))

structure Doc where
  name : String
  pages : List (List Char)
deriving DecidableEq, Repr

def docText (d : Doc) : List Char := normalizeText d.pages

/-! ## Field extractors (src/app.py lines 717-775), on normalized text -/

/-- `extract_balance_due_from_bytes`, after text extraction.  A match whose
    captured pieces fail `float` parsing raises `ValueError` (uncaught). -/
def balanceFromText (t : List Char) : PyResult (Option ℚ) :=
  match scanText matchBalanceAt none t with
  | none => .ok none
  | some g =>
      let s1 := if g.sign then '-' :: g.amount else g.amount
      let s2 := if g.popen && g.pclose then '-' :: s1 else s1
      match signed_money_to_float s2 with
      | none => .error .valueError
      | some v => .ok (some v)

/-- `extract_total_miles_from_bytes`, after text extraction. -/
def milesFromText (t : List Char) : Option Nat :=
  (scanText matchMilesAt none t).map (fun p => p.1 + p.2)

/-- `extract_tolls_subtotal_from_bytes`, after text extraction. -/
def tollsFromText (t : List Char) : PyResult (Option ℚ) :=
  match scanText matchTollsAt none t with
  | none => .ok none
  | some cap =>
      match signed_money_to_float cap with
      | none => .error .valueError
      | some v => .ok (some v)

/-- `extract_deductions_subtotal_from_bytes`, after text extraction. -/
def deductionsFromText (t : List Char) : PyResult (Option ℚ) :=
  match scanText matchDeductionsAt none t with
  | none => .ok none
  | some cap =>
      match signed_money_to_float cap with
      | none => .error .valueError
      | some v => .ok (some v)

/-- `extract_pickups_from_bytes`, after text extraction. -/
def pickupsFromText (t : List Char) : List (List Char) :=
  findPickupsGo (t.length + 1) none t

/-- `extract_pickup_date_range_from_bytes`, after text extraction. -/
def pickupDateRangeFromText (t : List Char) : Option (List Char) :=
  match pickupsFromText t with
  | [] => none
  | p :: rest => some (p ++ [' ', 't', 'o', ' '] ++ (p :: rest).getLastD p)

/-- `extract_first_pickup_date_obj`, after text extraction. -/
def firstPickupDateFromText (t : List Char) : Option Date :=
  match pickupsFromText t with
  | [] => none
  | p :: _ => strptime_mdy p

def extract_balance_due (d : Doc) : PyResult (Option ℚ) := balanceFromText (docText d)

def extract_total_miles (d : Doc) : Option Nat := milesFromText (docText d)

def extract_tolls_subtotal (d : Doc) : PyResult (Option ℚ) := tollsFromText (docText d)

def extract_deductions_subtotal (d : Doc) : PyResult (Option ℚ) :=
  deductionsFromText (docText d)

def extract_pickup_date_range (d : Doc) : Option (List Char) :=
  pickupDateRangeFromText (docText d)

def extract_first_pickup_date_obj (d : Doc) : Option Date :=
  firstPickupDateFromText (docText d)

/-! ## parse_user_date (src/app.py lines 777-835) -/

/-- MONTH_MAP from src/app.py lines 777-790. -/
def monthMap : List (List Char × Int) :=
  [(['j','a','n'], 1), (['j','a','n','u','a','r','y'], 1),
   (['f','e','b'], 2), (['f','e','b','r','u','a','r','y'], 2),
   (['m','a','r'], 3), (['m','a','r','c','h'], 3),
   (['a','p','r'], 4), (['a','p','r','i','l'], 4),
   (['m','a','y'], 5),
   (['j','u','n'], 6), (['j','u','n','e'], 6),
   (['j','u','l'], 7), (['j','u','l','y'], 7),
   (['a','u','g'], 8), (['a','u','g','u','s','t'], 8),
   (['s','e','p'], 9), (['s','e','p','t'], 9),
   (['s','e','p','t','e','m','b','e','r'], 9),
   (['o','c','t'], 10), (['o','c','t','o','b','e','r'], 10),
   (['n','o','v'], 11), (['n','o','v','e','m','b','e','r'], 11),
   (['d','e','c'], 12), (['d','e','c','e','m','b','e','r'], 12)]

/-- `MONTH_MAP.get(key, 0)`. -/
def monthMapGet (k : List Char) : Int :=
  match monthMap.lookup k with
  | some v => v
  | none => 0

/-- `a.lower()[:3]`. -/
def lower3 (a : List Char) : List Char := (a.map toLowerC).take 3

/-- The parts of the slash branch:
    `[p.strip() for p in raw.replace("-", "/").split("/") if p.strip()]`. -/
def slashParts (raw : List Char) : List (List Char) :=
  ((splitOnChar '/' (replaceChar '-' '/' raw)).map pyStrip).filter (· ≠ [])

/-- Tail of the slash branch once three parts are at hand (lines 802-820).
    Only `ValueError` from `datetime` is caught; `OverflowError` escapes. -/
def slashFinish (a b c : List Char) : PyResult (Option Date) :=
  let month : Int :=
    match pyInt a with
    | some n => n
    | none => monthMapGet (lower3 a)
  match pyInt b with
  | none => .ok none
  | some day =>
      match pyInt c with
      | none => .ok none
      | some year0 =>
          let year := if year0 < 100 then 2000 + year0 else year0
          match mkDatetime year month day with
          | .ok d => .ok (some d)
          | .error .valueError => .ok none
          | .error .overflowError => .error .overflowError

/-- The worded branch (lines 822-833); `except Exception` catches everything. -/
def wordedParse (raw : List Char) : PyResult (Option Date) :=
  match splitWs (pyStrip (replaceChar ',' ' ' raw)) with
  | a :: b :: c :: _ =>
      let month : Int := monthMapGet (lower3 a)
      match pyInt b, pyInt c with
      | some day, some year0 =>
          let year := if year0 < 100 then 2000 + year0 else year0
          match mkDatetime year month day with
          | .ok d => .ok (some d)
          | .error _ => .ok none
      | _, _ => .ok none
  | _ => .ok none

def parse_user_date (s : List Char) : PyResult (Option Date) :=
  if s = [] then .ok none
  else
    let raw := pyStrip s
    if raw = [] then .ok none
    else if raw.contains '/' then
      match slashParts raw with
      | [a, b, c] => slashFinish a b c
      | _ => wordedParse raw
    else wordedParse raw

/-! ## Batch store (UPLOAD_STORE, src/app.py lines 51, 871-891) -/

/-- `UPLOAD_STORE.get(upload_id, []) if upload_id else []`. -/
def storeGet (store : List (String × List Doc)) (id : String) : List Doc :=
  if id = "" then []
  else
    match store.lookup id with
    | some docs => docs
    | none => []

/-! ## Aggregation loop (src/app.py lines 953-989) -/

inductive Action where
  | balance
  | miles
  | tolls
  | expenses
deriving DecidableEq, Repr

structure Row where
  name : String
  daterange : Option (List Char)
  amount : Option ℚ
deriving DecidableEq, Repr

structure Report where
  rows : List Row
  total : ℚ
  missing : Nat
deriving DecidableEq, Repr

/-- The per-document extractor selected by the action; for miles the integer
    is accumulated as `float(amt)`. -/
def extractAmount (a : Action) (d : Doc) : PyResult (Option ℚ) :=
  match a with
  | .miles => .ok ((extract_total_miles d).map (fun n => (n : ℚ)))
  | .tolls => extract_tolls_subtotal d
  | .expenses => extract_deductions_subtotal d
  | .balance => extract_balance_due d

def aggGo (a : Action) : List Doc → List Row → ℚ → Nat → PyResult Report
  | [], rows, total, missing => .ok ⟨rows, total, missing⟩
  | d :: rest, rows, total, missing =>
      let dr := extract_pickup_date_range d
      match extractAmount a d with
      | .error e => .error e
      | .ok none => aggGo a rest (rows ++ [⟨d.name, dr, none⟩]) total (missing + 1)
      | .ok (some v) =>
          aggGo a rest (rows ++ [⟨d.name, dr, some v⟩]) (total + v) missing

/-- The loop of src/app.py lines 953-989: one row per stored document, in
    stored order; a raised extractor exception aborts the whole loop. -/
def aggregateDocs (a : Action) (docs : List Doc) : PyResult Report :=
  aggGo a docs [] 0 0

/-! ## Date-range filter (src/app.py lines 908-939) -/

def filterGo (s e : Date) : List Doc → List Doc → Nat → (List Doc × Nat)
  | [], kept, removed => (kept, removed)
  | item :: rest, kept, removed =>
      match extract_first_pickup_date_obj item with
      | none => filterGo s e rest (kept ++ [item]) removed
      | some d0 =>
          if dateLe s d0 ∧ dateLe d0 e then filterGo s e rest (kept ++ [item]) removed
          else filterGo s e rest kept (removed + 1)

/-- The in-place filter loop (lines 924-936): returns the new stored list and
    the removed count. -/
def filterDocs (s e : Date) (docs : List Doc) : List Doc × Nat :=
  filterGo s e docs [] 0

/-- The swap of lines 920-922: put the parsed dates in order, swapping the
    paired raw display strings alongside. -/
def orderRange (s e : Date) (sr er : List Char) :
    Date × Date × List Char × List Char :=
  if dateLt e s then (e, s, er, sr) else (s, e, sr, er)

inductive FilterOutcome where
  | noFiles
  | needBoth
  | filtered (kept : List Doc) (removed : Nat) (dispStart dispEnd : List Char)
deriving DecidableEq, Repr

/-- The `filter_dates` action (lines 908-939).  `parse_user_date` can raise
    (propagated); an empty stored list yields the "no stored files" message;
    a missing date yields the "enter both dates" message. -/
def handleFilter (docs : List Doc) (sr er : List Char) : PyResult FilterOutcome :=
  if docs = [] then .ok .noFiles
  else
    match parse_user_date sr with
    | .error e => .error e
    | .ok sd =>
        match parse_user_date er with
        | .error e => .error e
        | .ok ed =>
            match sd, ed with
            | some s, some e =>
                let r := orderRange s e sr er
                let f := filterDocs r.1 r.2.1 docs
                .ok (.filtered f.1 f.2 r.2.2.1 r.2.2.2)
            | _, _ => .ok .needBoth

/-! ## Decimal rendering of numerals (statement-side, for quantified date
    theorems: the shapes `A/B/C` and `Month D, YYYY` of the spec) -/

def digitChar (d : Nat) : Char :=
  match d with
  | 0 => '0' | 1 => '1' | 2 => '2' | 3 => '3' | 4 => '4'
  | 5 => '5' | 6 => '6' | 7 => '7' | 8 => '8' | _ => '9'

def renderNatGo : Nat → Nat → List Char → List Char
  | 0, _, acc => acc
  | fuel + 1, n, acc =>
      let c := digitChar (n % 10)
      if n < 10 then c :: acc else renderNatGo fuel (n / 10) (c :: acc)

/-- Usual decimal rendering of a natural number, without leading zeros. -/
def renderNat (n : Nat) : List Char := renderNatGo (n + 1) n []

/-- Full English month names, as in the worded date shape `Month D, YYYY`. -/
def monthName (m : Nat) : List Char :=
  match m with
  | 1 => ['J','a','n','u','a','r','y']
  | 2 => ['F','e','b','r','u','a','r','y']
  | 3 => ['M','a','r','c','h']
  | 4 => ['A','p','r','i','l']
  | 5 => ['M','a','y']
  | 6 => ['J','u','n','e']
  | 7 => ['J','u','l','y']
  | 8 => ['A','u','g','u','s','t']
  | 9 => ['S','e','p','t','e','m','b','e','r']
  | 10 => ['O','c','t','o','b','e','r']
  | 11 => ['N','o','v','e','m','b','e','r']
  | _ => ['D','e','c','e','m','b','e','r']

/-! ## Derived notions used by the statements -/

/-- The retention predicate the filter loop implements: documents with no
    extractable date are kept, others are kept iff in range. -/
def keepDoc (s e : Date) (d : Doc) : Bool :=
  match extract_first_pickup_date_obj d with
  | none => true
  | some d0 => decide (dateLe s d0 ∧ dateLe d0 e)

def rowsTotal (rows : List Row) : ℚ := (rows.filterMap Row.amount).sum

def missingCount (rows : List Row) : Nat :=
  (rows.filter (fun r => r.amount.isNone)).length

def presentCount (rows : List Row) : Nat := (rows.filterMap Row.amount).length

/-- The last character of a prefix, if any, else the ambient previous
    character: the `prev` seen by a scanner that has walked over the prefix. -/
def lastOpt (prev : Option Char) : List Char → Option Char
  | [] => prev
  | c :: r => lastOpt (some c) r

/-- Concrete fixture documents for the worked examples of the spec. -/
def exDoc1 : Doc := ⟨"jan.pdf", ["10001 01/01/24 01/02/24".data]⟩

def exDoc2 : Doc := ⟨"jun.pdf", ["10002 06/15/24 06/16/24".data]⟩

def exDoc3 : Doc := ⟨"dec.pdf", ["10003 12/31/24 12/31/24".data]⟩

/-- A document whose load row matches textually but whose pickup date is not
    a calendar date, so date extraction yields `none`. -/
def exDocBad : Doc := ⟨"bad.pdf", ["10004 02/30/24 03/01/24".data]⟩

/-! ## Helper lemmas -/

theorem filter_length_split {α : Type} (p : α → Bool) (l : List α) :
    (l.filter p).length + (l.filter (fun x => !p x)).length = l.length := by
  induction l with
  | nil => simp
  | cons x t ih =>
      by_cases hx : p x = true
      · simp [List.filter_cons, hx, ih]
        omega
      · simp only [Bool.not_eq_true] at hx
        simp [List.filter_cons, hx, ih]
        omega

theorem filterGo_spec (s e : Date) :
    ∀ (l kept : List Doc) (removed : Nat),
      filterGo s e l kept removed =
        (kept ++ l.filter (keepDoc s e),
          removed + (l.filter (fun d => !keepDoc s e d)).length) := by
  intro l
  induction l with
  | nil => intro kept removed; simp [filterGo]
  | cons d t ih =>
      intro kept removed
      unfold filterGo
      cases hx : extract_first_pickup_date_obj d with
      | none =>
          have hk : keepDoc s e d = true := by simp [keepDoc, hx]
          simp [ih, hk, List.filter_cons]
      | some d0 =>
          by_cases hr : dateLe s d0 ∧ dateLe d0 e
          · have hk : keepDoc s e d = true := by simp [keepDoc, hx, hr]
            simp [hr, ih, hk, List.filter_cons]
          · have hk : keepDoc s e d = false := by simp [keepDoc, hx, hr]
            simp [hr, ih, hk, List.filter_cons]
            omega

theorem aggGo_spec (a : Action) :
    ∀ (l : List Doc) (rows : List Row) (t : ℚ) (m : Nat) (r : Report),
      aggGo a l rows t m = .ok r →
      ∃ new, r.rows = rows ++ new
        ∧ r.total = t + rowsTotal new
        ∧ r.missing = m + missingCount new
        ∧ new.map Row.name = l.map Doc.name
        ∧ new.length = missingCount new + presentCount new := by
  intro l
  induction l with
  | nil =>
      intro rows t m r hr
      refine ⟨[], ?_⟩
      have : r = ⟨rows, t, m⟩ := by
        simpa [aggGo] using hr.symm
      subst this
      simp [rowsTotal, missingCount, presentCount]
  | cons d tl ih =>
      intro rows t m r hr
      unfold aggGo at hr
      cases hx : extractAmount a d with
      | error e => rw [hx] at hr; exact absurd hr (by simp)
      | ok amt =>
          rw [hx] at hr
          cases amt with
          | none =>
              obtain ⟨new, h1, h2, h3, h4, h5⟩ := ih _ _ _ _ hr
              refine ⟨⟨d.name, extract_pickup_date_range d, none⟩ :: new, ?_, ?_, ?_, ?_, ?_⟩
              · simpa using h1
              · simpa [rowsTotal] using h2
              · simp [missingCount, List.filter_cons] at h3 ⊢
                omega
              · simpa using h4
              · simp [missingCount, presentCount, List.filter_cons] at h5 ⊢
                omega
          | some v =>
              obtain ⟨new, h1, h2, h3, h4, h5⟩ := ih _ _ _ _ hr
              refine ⟨⟨d.name, extract_pickup_date_range d, some v⟩ :: new, ?_, ?_, ?_, ?_, ?_⟩
              · simpa using h1
              · simp [rowsTotal] at h2 ⊢
                rw [h2]; ring
              · simp [missingCount, List.filter_cons] at h3 ⊢
                omega
              · simpa using h4
              · simp [missingCount, presentCount, List.filter_cons] at h5 ⊢
                omega

/-! ## Claims -/

/-- C1: the spec says a matched-but-malformed number must be downgraded to
    the not-found outcome at the extractor boundary and never propagated.
    The code violates this: on a parenthesized and minus-signed amount each
    money extractor builds a doubly negated string and `float` raises an
    uncaught `ValueError`, which aborts the whole aggregation loop. -/
theorem claim1_malformed_number_raises :
    balanceFromText "Balance due: (-$45.00)".data = .error .valueError
    ∧ tollsFromText "Tolls charged Subtotal (-$124.55)".data = .error .valueError
    ∧ deductionsFromText "Deductions Subtotal: (-$80.00)".data = .error .valueError
    ∧ aggregateDocs .balance
        [⟨"bad.pdf", ["Balance due: (-$45.00)".data]⟩,
         ⟨"good.pdf", ["Balance due: $10.00".data]⟩] = .error .valueError := by
  decide

/-- C2: aggregating a batch stored under a fresh (unknown) id, or an emptied
    batch, yields the empty report with total 0 and missing count 0, and
    never an error. -/
theorem claim2_empty_batch_empty_report (store : List (String × List Doc))
    (id : String) (a : Action) (h : store.lookup id = none) :
    storeGet store id = []
    ∧ aggregateDocs a (storeGet store id) = .ok ⟨[], 0, 0⟩ := by
  have hs : storeGet store id = [] := by
    by_cases hid : id = "" <;> simp [storeGet, hid, h]
  exact ⟨hs, by rw [hs]; rfl⟩

theorem claim2_witness :
    storeGet [] "fresh-batch" = []
    ∧ aggregateDocs .balance (storeGet [] "fresh-batch") = .ok ⟨[], 0, 0⟩ :=
  claim2_empty_batch_empty_report [] "fresh-batch" .balance rfl

/-- C4: date-range filtering is fail-open and exact on counts.  The kept list
    is exactly the documents satisfying the retention predicate (which keeps
    every document whose pickup date cannot be extracted), the removed count
    is the number of documents dropped, and on the worked example with
    pickup dates 01/01/24, 06/15/24, 12/31/24 and range 02/01/24-11/30/24
    only the second document survives with removed count 2; a document whose
    textually matched date is not a calendar date is always retained. -/
theorem claim4_filter_fail_open_exact (s e : Date) (docs : List Doc) :
    (filterDocs s e docs).1 = docs.filter (keepDoc s e)
    ∧ (filterDocs s e docs).2 = (docs.filter (fun d => !keepDoc s e d)).length
    ∧ (∀ d ∈ docs, extract_first_pickup_date_obj d = none →
        d ∈ (filterDocs s e docs).1)
    ∧ (∀ d ∈ docs, ∀ d0, extract_first_pickup_date_obj d = some d0 →
        (d ∈ (filterDocs s e docs).1 ↔ dateLe s d0 ∧ dateLe d0 e))
    ∧ handleFilter [exDoc1, exDoc2, exDoc3] "02/01/24".data "11/30/24".data
        = .ok (.filtered [exDoc2] 2 "02/01/24".data "11/30/24".data)
    ∧ filterDocs ⟨2024, 2, 1⟩ ⟨2024, 11, 30⟩ [exDocBad] = ([exDocBad], 0) := by
  have hspec := filterGo_spec s e docs [] 0
  have h1 : (filterDocs s e docs).1 = docs.filter (keepDoc s e) := by
    unfold filterDocs; rw [hspec]; simp
  have h2 : (filterDocs s e docs).2 =
      (docs.filter (fun d => !keepDoc s e d)).length := by
    unfold filterDocs; rw [hspec]; simp
  refine ⟨h1, h2, ?_, ?_, by decide, by decide⟩
  · intro d hd hnone
    rw [h1]
    exact List.mem_filter.mpr ⟨hd, by simp [keepDoc, hnone]⟩
  · intro d hd d0 hsome
    rw [h1]
    constructor
    · intro hm
      have := (List.mem_filter.mp hm).2
      simpa [keepDoc, hsome] using this
    · intro hr
      exact List.mem_filter.mpr ⟨hd, by simp [keepDoc, hsome, hr]⟩

theorem claim4_witness :
    exDocBad ∈ (filterDocs ⟨2024, 2, 1⟩ ⟨2024, 11, 30⟩ [exDocBad]).1 :=
  (claim4_filter_fail_open_exact ⟨2024, 2, 1⟩ ⟨2024, 11, 30⟩ [exDocBad]).2.2.1
    exDocBad (by decide) (by decide)

/-- C8: whenever the aggregation loop completes with a report, the total is
    the sum of exactly the rows with a present value, the missing count is
    the number of rows with an absent value, the number of rows is missing
    plus present, and there is one row per stored document in stored order
    (witnessed by the name sequence). -/
theorem claim8_aggregate_invariants (a : Action) (docs : List Doc) (r : Report)
    (h : aggregateDocs a docs = .ok r) :
    r.total = rowsTotal r.rows
    ∧ r.missing = missingCount r.rows
    ∧ r.rows.length = r.missing + presentCount r.rows
    ∧ r.rows.map Row.name = docs.map Doc.name := by
  obtain ⟨new, h1, h2, h3, h4, h5⟩ := aggGo_spec a docs [] 0 0 r h
  simp only [List.nil_append] at h1
  subst h1
  have h3' : r.missing = missingCount r.rows := by simpa using h3
  refine ⟨by simpa using h2, h3', ?_, h4⟩
  rw [h5, h3']

theorem claim8_witness :
    (Report.mk [⟨"bad.pdf", some "02/30/24 to 02/30/24".data, none⟩] 0 1).total
      = rowsTotal (Report.mk [⟨"bad.pdf", some "02/30/24 to 02/30/24".data, none⟩] 0 1).rows
    ∧ (Report.mk [⟨"bad.pdf", some "02/30/24 to 02/30/24".data, none⟩] 0 1).missing
      = missingCount (Report.mk [⟨"bad.pdf", some "02/30/24 to 02/30/24".data, none⟩] 0 1).rows
    ∧ (Report.mk [⟨"bad.pdf", some "02/30/24 to 02/30/24".data, none⟩] 0 1).rows.length
      = (Report.mk [⟨"bad.pdf", some "02/30/24 to 02/30/24".data, none⟩] 0 1).missing
        + presentCount (Report.mk [⟨"bad.pdf", some "02/30/24 to 02/30/24".data, none⟩] 0 1).rows
    ∧ (Report.mk [⟨"bad.pdf", some "02/30/24 to 02/30/24".data, none⟩] 0 1).rows.map Row.name
      = [exDocBad].map Doc.name :=
  claim8_aggregate_invariants .miles [exDocBad] _ (by decide)

/-- C9: the spec requires the date parser to be total (a date or `none`,
    never a hard failure).  The code violates this: in the slash branch only
    `ValueError` is caught, so a numeric component too large for a C int
    makes `datetime` raise an uncaught `OverflowError`.  On ordinary
    malformed inputs the parser does return `none`. -/
theorem claim9_parser_can_raise :
    parse_user_date "1/1/9999999999".data = .error .overflowError
    ∧ parse_user_date "".data = .ok none
    ∧ parse_user_date "13/40/99".data = .ok none
    ∧ parse_user_date "02/30/24".data = .ok none
    ∧ parse_user_date "Blorf 5 2020".data = .ok none
    ∧ parse_user_date "not a date".data = .ok none := by
  decide

/-- C10: the in-place date filter only removes documents: the kept list is a
    subsequence of the stored list (order preserved, nothing added), and the
    kept count plus the reported removed count is the original batch size. -/
theorem claim10_filter_is_sublist (s e : Date) (docs : List Doc) :
    List.Sublist (filterDocs s e docs).1 docs
    ∧ (filterDocs s e docs).1.length + (filterDocs s e docs).2 = docs.length := by
  have hspec := filterGo_spec s e docs [] 0
  unfold filterDocs
  rw [hspec]
  constructor
  · simp only [List.nil_append]
    exact List.filter_sublist docs
  · simpa using filter_length_split (keepDoc s e) docs

theorem claim10_witness :
    List.Sublist (filterDocs ⟨2024, 2, 1⟩ ⟨2024, 11, 30⟩ [exDoc1, exDoc2, exDoc3]).1
      [exDoc1, exDoc2, exDoc3]
    ∧ (filterDocs ⟨2024, 2, 1⟩ ⟨2024, 11, 30⟩ [exDoc1, exDoc2, exDoc3]).1.length
      + (filterDocs ⟨2024, 2, 1⟩ ⟨2024, 11, 30⟩ [exDoc1, exDoc2, exDoc3]).2
      = [exDoc1, exDoc2, exDoc3].length :=
  claim10_filter_is_sublist ⟨2024, 2, 1⟩ ⟨2024, 11, 30⟩ [exDoc1, exDoc2, exDoc3]

theorem dateLt_asymm {a b : Date} (h : dateLt a b) : ¬ dateLt b a := by
  unfold dateLt at h ⊢
  omega

theorem dateLe_of_dateLt {a b : Date} (h : dateLt a b) : dateLe a b := by
  unfold dateLt at h
  unfold dateLe
  omega

/-- C6: a user-entered range with both dates valid and end before start is
    swapped (parsed dates and paired raw display strings alike) before
    filtering, so the outcome is the same as for the range entered in order;
    and whenever both dates are present the effective range used for
    filtering satisfies start before-or-equal end. -/
theorem claim6_reversed_range_swapped (docs : List Doc) (sr er : List Char)
    (s e : Date) (hs : parse_user_date sr = .ok (some s))
    (he : parse_user_date er = .ok (some e)) (hlt : dateLt e s) :
    handleFilter docs sr er = handleFilter docs er sr
    ∧ orderRange s e sr er = (e, s, er, sr)
    ∧ (docs ≠ [] → handleFilter docs sr er =
        .ok (.filtered (filterDocs e s docs).1 (filterDocs e s docs).2 er sr))
    ∧ (∀ (a b : Date) (ra rb : List Char),
        dateLe (orderRange a b ra rb).1 (orderRange a b ra rb).2.1) := by
  have hord1 : orderRange s e sr er = (e, s, er, sr) := by
    unfold orderRange; rw [if_pos hlt]
  have hord2 : orderRange e s er sr = (e, s, er, sr) := by
    unfold orderRange; rw [if_neg (dateLt_asymm hlt)]
  have hgen : ∀ (a b : Date) (ra rb : List Char),
      dateLe (orderRange a b ra rb).1 (orderRange a b ra rb).2.1 := by
    intro a b ra rb
    unfold orderRange
    by_cases h : dateLt b a
    · rw [if_pos h]
      exact dateLe_of_dateLt h
    · rw [if_neg h]
      exact dateLe_of_not_dateLt h
  refine ⟨?_, hord1, ?_, hgen⟩
  · by_cases hd : docs = []
    · simp [handleFilter, hd]
    · simp only [handleFilter, if_neg hd, hs, he]
      rw [hord1, hord2]
  · intro hd
    simp only [handleFilter, if_neg hd, hs, he]
    rw [hord1]

theorem claim6_witness :
    handleFilter [exDoc1] "12/31/24".data "01/01/24".data
      = handleFilter [exDoc1] "01/01/24".data "12/31/24".data :=
  (claim6_reversed_range_swapped [exDoc1] "12/31/24".data "01/01/24".data
    ⟨2024, 12, 31⟩ ⟨2024, 1, 1⟩ (by decide) (by decide) (by decide)).1

/-! ## Scanning lemmas for the quantified extraction claims -/

theorem takeWhile_append_all {p : Char → Bool} (l₁ l₂ : List Char)
    (h : ∀ c ∈ l₁, p c = true) :
    (l₁ ++ l₂).takeWhile p = l₁ ++ l₂.takeWhile p := by
  induction l₁ with
  | nil => simp
  | cons c t ih =>
      simp only [List.cons_append, List.takeWhile_cons, h c (by simp), if_true]
      rw [ih (fun x hx => h x (by simp [hx]))]

theorem dropWhile_append_all {p : Char → Bool} (l₁ l₂ : List Char)
    (h : ∀ c ∈ l₁, p c = true) :
    (l₁ ++ l₂).dropWhile p = l₂.dropWhile p := by
  induction l₁ with
  | nil => simp
  | cons c t ih =>
      simp only [List.cons_append, List.dropWhile_cons, h c (by simp), if_true]
      exact ih (fun x hx => h x (by simp [hx]))

theorem isWordC_of_isDigitC {c : Char} (h : isDigitC c = true) :
    isWordC c = true := by
  simp [isWordC, h]

theorem isDigitC_eq_false_of_not_word {c : Char} (h : isWordC c = false) :
    isDigitC c = false := by
  cases hd : isDigitC c with
  | false => rfl
  | true => exact absurd (isWordC_of_isDigitC hd) (by simp [h])

theorem takeWhile_digit_eq_nil {q : List Char} (hq : headNonWord q = true) :
    q.takeWhile isDigitC = [] := by
  cases q with
  | nil => rfl
  | cons c r =>
      simp only [headNonWord, Bool.not_eq_eq_eq_not, Bool.not_true] at hq
      simp [List.takeWhile_cons, isDigitC_eq_false_of_not_word hq]

theorem dropWhile_digit_eq_self {q : List Char} (hq : headNonWord q = true) :
    q.dropWhile isDigitC = q := by
  cases q with
  | nil => rfl
  | cons c r =>
      simp only [headNonWord, Bool.not_eq_eq_eq_not, Bool.not_true] at hq
      simp [List.dropWhile_cons, isDigitC_eq_false_of_not_word hq]

theorem scanText_cons {α : Type} (m : Option Char → List Char → Option α)
    (prev : Option Char) (c : Char) (rest : List Char) :
    scanText m prev (c :: rest) =
      match m prev (c :: rest) with
      | some r => some r
      | none => scanText m (some c) rest := rfl

theorem scanText_eq_of_match_head {α : Type} (m : Option Char → List Char → Option α)
    (prev : Option Char) (s : List Char) (r : α) (h : m prev s = some r) :
    scanText m prev s = some r := by
  cases s with
  | nil => simpa [scanText] using h
  | cons c t => simp [scanText_cons, h]

/-- Leftmost scanning skips a prefix on which the matcher fails by its first
    character. -/
theorem scanText_append {α : Type} (m : Option Char → List Char → Option α)
    (bad : Char → Prop) (hm : ∀ prev c t, bad c → m prev (c :: t) = none) :
    ∀ (p : List Char) (prev : Option Char) (rest : List Char),
      (∀ c ∈ p, bad c) →
      scanText m prev (p ++ rest) = scanText m (lastOpt prev p) rest := by
  intro p
  induction p with
  | nil => intro prev rest _; rfl
  | cons c t ih =>
      intro prev rest hp
      have h0 : m prev (c :: (t ++ rest)) = none := hm _ _ _ (hp c (by simp))
      simp only [List.cons_append, scanText_cons, h0, lastOpt]
      exact ih (some c) rest (fun x hx => hp x (by simp [hx]))

theorem matchBalanceAt_head_ne (prev : Option Char) (c : Char) (t : List Char)
    (h : ¬ toLowerC c = 'b') : matchBalanceAt prev (c :: t) = none := by
  have h1 : matchCI ['b', 'a', 'l', 'a', 'n', 'c', 'e'] (c :: t) = none := by
    simp only [matchCI, if_neg h]
  simp [matchBalanceAt, h1]

theorem matchMilesAt_head_ne (prev : Option Char) (c : Char) (t : List Char)
    (h : ¬ toLowerC c = 's') : matchMilesAt prev (c :: t) = none := by
  have h1 : matchCI ['s', 'u', 'b', 't', 'o', 't', 'a', 'l'] (c :: t) = none := by
    simp only [matchCI, if_neg h]
  simp [matchMilesAt, h1]

theorem matchMiles_main (prev : Option Char) (hb : boundaryOk prev = true)
    (q : List Char) (hq : headNonWord q = true) :
    matchMilesAt prev ("Subtotal: 524 2427".data ++ q) = some (524, 2427) := by
  have h1 : natOfDigits ['5', '2', '4'] = 524 := by decide
  have h2 : natOfDigits ['2', '4', '2', '7'] = 2427 := by decide
  have e1 : ("Subtotal: 524 2427".data ++ q) =
      ("Subtotal: 524 ".data ++ ('2' :: '4' :: '2' :: '7' :: q)) := by
    simp [String.data]
  rw [e1]
  have e2 : List.takeWhile isDigitC ('2' :: '4' :: '2' :: '7' :: q) =
      ['2', '4', '2', '7'] := by
    simp +decide [List.takeWhile_cons, takeWhile_digit_eq_nil hq]
  have e3 : List.dropWhile isDigitC ('2' :: '4' :: '2' :: '7' :: q) = q := by
    simp +decide [List.dropWhile_cons, dropWhile_digit_eq_self hq]
  simp +decide [matchMilesAt, matchCI, takeSpaces, hb, e2, e3, hq, h1, h2]

/-! ## Money value lemmas for the concrete amounts of the spec -/

theorem money_val_1234_56 :
    signed_money_to_float "1,234.56".data = some (1234.56 : ℚ) := by
  have hp : pyFloatParse (moneyChars "1,234.56".data) =
      some ⟨false, "1234".data, "56".data⟩ := by decide
  have h3 : natOfDigits "1234".data = 1234 := by decide
  have h4 : natOfDigits "56".data = 56 := by decide
  have h5 : ("56".data).length = 2 := by decide
  simp only [signed_money_to_float, pyFloat, hp, Option.map]
  norm_num [partsVal, h3, h4, h5]

theorem money_val_neg45 :
    signed_money_to_float ('-' :: "45.00".data) = some (-45.00 : ℚ) := by
  have hp : pyFloatParse (moneyChars ('-' :: "45.00".data)) =
      some ⟨true, "45".data, "00".data⟩ := by decide
  have h3 : natOfDigits "45".data = 45 := by decide
  have h4 : natOfDigits "00".data = 0 := by decide
  have h5 : ("00".data).length = 2 := by decide
  simp only [signed_money_to_float, pyFloat, hp, Option.map]
  norm_num [partsVal, h3, h4, h5]

theorem money_val_2 : signed_money_to_float "2.00".data = some (2 : ℚ) := by
  have hp : pyFloatParse (moneyChars "2.00".data) =
      some ⟨false, "2".data, "00".data⟩ := by decide
  have h3 : natOfDigits "2".data = 2 := by decide
  have h4 : natOfDigits "00".data = 0 := by decide
  have h5 : ("00".data).length = 2 := by decide
  simp only [signed_money_to_float, pyFloat, hp, Option.map]
  norm_num [partsVal, h3, h4, h5]

theorem balanceFromText_of_scan (t : List Char) (po sg : Bool) (amt : List Char)
    (pc : Bool) (v : ℚ)
    (hscan : scanText matchBalanceAt none t = some ⟨po, sg, amt, pc⟩)
    (hv : signed_money_to_float
        (if po && pc then '-' :: (if sg then '-' :: amt else amt)
         else if sg then '-' :: amt else amt) = some v) :
    balanceFromText t = .ok (some v) := by
  simp only [balanceFromText, hscan, hv]

/-- C5: a document whose normalized text carries `Balance due: $1,234.56`
    after any prefix in which no match can start (no letter b, and a word
    boundary at the junction) yields 1234.56 whatever follows; the
    parenthesized form `($45.00)` and the signed form `-$45.00` both yield
    -45.00; and with two occurrences the first match in document order wins. -/
theorem claim5_balance_extraction (p q : List Char)
    (hp : ∀ c ∈ p, ¬ toLowerC c = 'b')
    (hb : boundaryOk (lastOpt none p) = true) :
    balanceFromText (p ++ ("Balance due: $1,234.56".data ++ q))
      = .ok (some (1234.56 : ℚ))
    ∧ balanceFromText (p ++ ("Balance due: ($45.00)".data ++ q))
      = .ok (some (-45.00 : ℚ))
    ∧ balanceFromText (p ++ ("Balance due: -$45.00".data ++ q))
      = .ok (some (-45.00 : ℚ))
    ∧ balanceFromText "note Balance due: $2.00 and Balance due: $3.00".data
      = .ok (some (2 : ℚ)) := by
  have hskip : ∀ rest, scanText matchBalanceAt none (p ++ rest)
      = scanText matchBalanceAt (lastOpt none p) rest := fun rest =>
    scanText_append matchBalanceAt (fun c => ¬ toLowerC c = 'b')
      matchBalanceAt_head_ne p none rest hp
  refine ⟨?_, ?_, ?_, ?_⟩
  · have hm : matchBalanceAt (lastOpt none p)
        ("Balance due: $1,234.56".data ++ q)
        = some ⟨false, false, "1,234.56".data,
            (tryCharB ')' (q.dropWhile isSpaceC)).1⟩ := by
      simp +decide [matchBalanceAt, matchCI, takeSpaces, tryCharB, hb,
        headNonWord, amountPat, digitsUpTo3, commaGroups, decimalPart]
    exact balanceFromText_of_scan _ _ _ _ _ _
      (by rw [hskip]; exact scanText_eq_of_match_head _ _ _ _ hm)
      (by simpa using money_val_1234_56)
  · have hm : matchBalanceAt (lastOpt none p)
        ("Balance due: ($45.00)".data ++ q)
        = some ⟨true, false, "45.00".data, true⟩ := by
      simp +decide [matchBalanceAt, matchCI, takeSpaces, tryCharB, hb,
        headNonWord, amountPat, digitsUpTo3, commaGroups, decimalPart]
    exact balanceFromText_of_scan _ _ _ _ _ _
      (by rw [hskip]; exact scanText_eq_of_match_head _ _ _ _ hm)
      (by simpa using money_val_neg45)
  · have hm : matchBalanceAt (lastOpt none p)
        ("Balance due: -$45.00".data ++ q)
        = some ⟨false, true, "45.00".data,
            (tryCharB ')' (q.dropWhile isSpaceC)).1⟩ := by
      simp +decide [matchBalanceAt, matchCI, takeSpaces, tryCharB, hb,
        headNonWord, amountPat, digitsUpTo3, commaGroups, decimalPart]
    exact balanceFromText_of_scan _ _ _ _ _ _
      (by rw [hskip]; exact scanText_eq_of_match_head _ _ _ _ hm)
      (by simpa using money_val_neg45)
  · have hscan : scanText matchBalanceAt none
        "note Balance due: $2.00 and Balance due: $3.00".data
        = some ⟨false, false, "2.00".data, false⟩ := by decide
    exact balanceFromText_of_scan _ _ _ _ _ _ hscan (by simpa using money_val_2)

theorem claim5_witness :
    balanceFromText ([] ++ ("Balance due: $1,234.56".data ++ []))
      = .ok (some (1234.56 : ℚ))
    ∧ balanceFromText ([] ++ ("Balance due: ($45.00)".data ++ []))
      = .ok (some (-45.00 : ℚ))
    ∧ balanceFromText ([] ++ ("Balance due: -$45.00".data ++ []))
      = .ok (some (-45.00 : ℚ))
    ∧ balanceFromText "note Balance due: $2.00 and Balance due: $3.00".data
      = .ok (some (2 : ℚ)) :=
  claim5_balance_extraction [] [] (by simp) (by decide)

/-- C7: the miles extractor takes the first `Subtotal:` label followed by
    exactly two bounded integers and returns their sum: after any prefix in
    which no match can start, `Subtotal: 524 2427` followed by a non-word
    character yields 2951; a document with no such occurrence yields none;
    and with two matching subtotals the first one in document order wins. -/
theorem claim7_miles_extraction (p q : List Char)
    (hp : ∀ c ∈ p, ¬ toLowerC c = 's')
    (hb : boundaryOk (lastOpt none p) = true)
    (hq : headNonWord q = true) :
    milesFromText (p ++ ("Subtotal: 524 2427".data ++ q)) = some 2951
    ∧ milesFromText "Totals: 524 2427 miles".data = none
    ∧ milesFromText "Subtotal: 524".data = none
    ∧ milesFromText "Subtotal: 1 2 Subtotal: 524 2427".data = some 3 := by
  refine ⟨?_, by decide, by decide, by decide⟩
  unfold milesFromText
  rw [scanText_append matchMilesAt (fun c => ¬ toLowerC c = 's')
    matchMilesAt_head_ne p none _ hp]
  rw [scanText_eq_of_match_head _ _ _ _ (matchMiles_main (lastOpt none p) hb q hq)]
  rfl

theorem claim7_witness :
    milesFromText ([] ++ ("Subtotal: 524 2427".data ++ [])) = some 2951
    ∧ milesFromText "Totals: 524 2427 miles".data = none
    ∧ milesFromText "Subtotal: 524".data = none
    ∧ milesFromText "Subtotal: 1 2 Subtotal: 524 2427".data = some 3 :=
  claim7_miles_extraction [] [] (by simp) (by decide) (by decide)

/-! ## Decimal rendering round-trips through the Python numeric parsers -/

theorem digitVal_digitChar {n : Nat} (h : n < 10) : digitVal (digitChar n) = n := by
  interval_cases n <;> rfl

theorem isDigitC_digitChar {n : Nat} (h : n < 10) : isDigitC (digitChar n) = true := by
  interval_cases n <;> rfl

theorem renderNatGo_spec :
    ∀ (fuel n : Nat) (acc : List Char), n < 10 ^ (fuel + 1) →
      ∃ pre, renderNatGo (fuel + 1) n acc = pre ++ acc
        ∧ pre ≠ []
        ∧ (∀ c ∈ pre, isDigitC c = true)
        ∧ ∀ A : Nat, pre.foldl (fun a c => a * 10 + digitVal c) A
            = A * 10 ^ pre.length + n := by
  intro fuel
  induction fuel with
  | zero =>
      intro n acc h
      have hn : n < 10 := by simpa using h
      have hmod : n % 10 = n := Nat.mod_eq_of_lt hn
      refine ⟨[digitChar (n % 10)], ?_, by simp, ?_, ?_⟩
      · simp [renderNatGo, hn]
      · intro c hc
        simp only [List.mem_singleton] at hc
        subst hc
        exact isDigitC_digitChar (by omega)
      · intro A
        simp [List.foldl, hmod, digitVal_digitChar hn]
  | succ fuel ih =>
      intro n acc h
      by_cases hn : n < 10
      · have hmod : n % 10 = n := Nat.mod_eq_of_lt hn
        refine ⟨[digitChar (n % 10)], ?_, by simp, ?_, ?_⟩
        · simp [renderNatGo, hn]
        · intro c hc
          simp only [List.mem_singleton] at hc
          subst hc
          exact isDigitC_digitChar (by omega)
        · intro A
          simp [List.foldl, hmod, digitVal_digitChar hn]
      · have hdiv : n / 10 < 10 ^ (fuel + 1) := by
          apply Nat.div_lt_of_lt_mul
          calc n < 10 ^ (fuel + 1 + 1) := h
          _ = 10 * 10 ^ (fuel + 1) := by ring
        obtain ⟨pre, h1, h2, h3, h4⟩ := ih (n / 10) (digitChar (n % 10) :: acc) hdiv
        refine ⟨pre ++ [digitChar (n % 10)], ?_, by simp [h2], ?_, ?_⟩
        · rw [renderNatGo]
          simp only [if_neg hn]
          rw [h1, List.append_assoc, List.singleton_append]
        · intro c hc
          rcases List.mem_append.mp hc with hc | hc
          · exact h3 c hc
          · simp only [List.mem_singleton] at hc
            subst hc
            exact isDigitC_digitChar (by omega)
        · intro A
          rw [List.foldl_append, h4 A]
          have hval : digitVal (digitChar (n % 10)) = n % 10 :=
            digitVal_digitChar (by omega)
          simp only [List.foldl, hval, List.length_append, List.length_singleton]
          have hdm : n / 10 * 10 + n % 10 = n := by omega
          calc (A * 10 ^ pre.length + n / 10) * 10 + n % 10
              = A * (10 ^ pre.length * 10) + (n / 10 * 10 + n % 10) := by ring
          _ = A * 10 ^ (pre.length + 1) + n := by rw [hdm, pow_succ]

theorem renderNat_spec (n : Nat) :
    renderNat n ≠ []
    ∧ (∀ c ∈ renderNat n, isDigitC c = true)
    ∧ natOfDigits (renderNat n) = n := by
  have hlt : n < 10 ^ (n + 1) := by
    calc n < 2 ^ n := Nat.lt_two_pow n
    _ ≤ 10 ^ n := Nat.pow_le_pow_left (by omega) n
    _ ≤ 10 ^ (n + 1) := Nat.pow_le_pow_right (by omega) (by omega)
  obtain ⟨pre, h1, h2, h3, h4⟩ := renderNatGo_spec n n [] hlt
  have he : renderNat n = pre := by
    rw [renderNat, h1, List.append_nil]
  refine ⟨by rw [he]; exact h2, by rw [he]; exact h3, ?_⟩
  rw [he]
  unfold natOfDigits
  rw [h4 0]
  simp

theorem isDigitC_char_ne {c d : Char} (h : isDigitC c = true)
    (hd : isDigitC d = false) : c ≠ d := by
  intro he
  subst he
  rw [h] at hd
  cases hd

theorem isSpaceC_eq_false_of_digit {c : Char} (h : isDigitC c = true) :
    isSpaceC c = false := by
  simp only [isDigitC, Bool.and_eq_true, decide_eq_true_eq] at h
  simp only [isSpaceC, Bool.or_eq_false_iff, Bool.and_eq_false_iff]
  refine ⟨by simp only [decide_eq_false_iff_not]; omega,
    Or.inr (by simp only [decide_eq_false_iff_not]; omega)⟩

theorem pyIntCore_all_digits :
    ∀ (l : List Char) (acc : Nat), (∀ c ∈ l, isDigitC c = true) →
      pyIntCore acc l = some (l.foldl (fun a c => a * 10 + digitVal c) acc) := by
  intro l
  induction l with
  | nil => intro acc _; rfl
  | cons c t ih =>
      intro acc h
      have hc : isDigitC c = true := h c (by simp)
      have hne : c ≠ '_' := isDigitC_char_ne hc (by decide)
      rw [pyIntCore.eq_def]
      simp only [if_neg hne, if_pos hc, List.foldl_cons]
      exact ih _ (fun x hx => h x (by simp [hx]))

theorem pyIntNat_render (n : Nat) : pyIntNat (renderNat n) = some n := by
  obtain ⟨h1, h2, h3⟩ := renderNat_spec n
  cases hl : renderNat n with
  | nil => exact absurd hl h1
  | cons c cs =>
      rw [hl] at h2 h3
      have hc : isDigitC c = true := h2 c (by simp)
      simp only [pyIntNat, if_pos hc]
      rw [pyIntCore_all_digits cs (digitVal c) (fun x hx => h2 x (by simp [hx]))]
      congr 1
      rw [← h3]
      unfold natOfDigits
      simp [List.foldl]

theorem dropWhile_all_neg {p : Char → Bool} :
    ∀ (l : List Char), (∀ c ∈ l, p c = false) → l.dropWhile p = l := by
  intro l
  induction l with
  | nil => intro _; rfl
  | cons c t _ =>
      intro h
      simp [List.dropWhile_cons, h c (by simp)]

theorem pyStrip_all {l : List Char} (h : ∀ c ∈ l, isSpaceC c = false) :
    pyStrip l = l := by
  unfold pyStrip
  rw [dropWhile_all_neg l h]
  rw [dropWhile_all_neg l.reverse (fun c hc => h c (List.mem_reverse.mp hc))]
  exact List.reverse_reverse l

theorem pyInt_render (n : Nat) : pyInt (renderNat n) = some (n : Int) := by
  obtain ⟨h1, h2, _⟩ := renderNat_spec n
  have hstrip : pyStrip (renderNat n) = renderNat n :=
    pyStrip_all (fun c hc => isSpaceC_eq_false_of_digit (h2 c hc))
  cases hl : renderNat n with
  | nil => exact absurd hl h1
  | cons c cs =>
      rw [hl] at h2 hstrip
      have hc : isDigitC c = true := h2 c (by simp)
      have hminus : c ≠ '-' := isDigitC_char_ne hc (by decide)
      have hplus : c ≠ '+' := isDigitC_char_ne hc (by decide)
      simp only [pyInt, hstrip, if_neg hminus, if_neg hplus]
      rw [show (c :: cs) = renderNat n from hl.symm, pyIntNat_render n]
      rfl

/-! ## String-splitting lemmas -/

theorem splitOnP_sepfree (p : Char → Bool) :
    ∀ (l : List Char), (∀ c ∈ l, p c = false) → splitOnP p l = [l] := by
  intro l
  induction l with
  | nil => intro _; rfl
  | cons c t ih =>
      intro h
      simp only [splitOnP, h c (by simp), Bool.false_eq_true, if_false,
        ih (fun x hx => h x (by simp [hx]))]

theorem splitOnP_append (p : Char → Bool) :
    ∀ (a : List Char), (∀ c ∈ a, p c = false) →
      ∀ (c : Char), p c = true → ∀ (rest : List Char),
        splitOnP p (a ++ c :: rest) = a :: splitOnP p rest := by
  intro a
  induction a with
  | nil =>
      intro _ c hc rest
      simp [splitOnP, hc]
  | cons x a ih =>
      intro h c hc rest
      have hx := ih (fun y hy => h y (by simp [hy])) c hc rest
      simp only [List.cons_append, splitOnP, h x (by simp), Bool.false_eq_true,
        if_false, List.append_eq, hx]

theorem replaceChar_not_mem (a b : Char) :
    ∀ (l : List Char), (∀ c ∈ l, c ≠ a) → replaceChar a b l = l := by
  intro l
  induction l with
  | nil => intro _; rfl
  | cons c t ih =>
      intro h
      simp only [replaceChar, List.map_cons, if_neg (h c (by simp))]
      have := ih (fun x hx => h x (by simp [hx]))
      simp only [replaceChar] at this
      rw [this]

theorem contains_of_mem {l : List Char} {x : Char} (h : x ∈ l) :
    l.contains x = true :=
  List.elem_eq_true_of_mem h

theorem contains_eq_false {l : List Char} {x : Char} (h : ∀ c ∈ l, c ≠ x) :
    l.contains x = false := by
  rw [Bool.eq_false_iff]
  intro hc
  exact h x (List.mem_of_elem_eq_true hc) rfl

theorem dropWhile_head_neg {p : Char → Bool} {l : List Char}
    (h : ∀ c, l.head? = some c → p c = false) : l.dropWhile p = l := by
  cases l with
  | nil => rfl
  | cons c t => simp [List.dropWhile_cons, h c rfl]

theorem pyStrip_ends {l : List Char}
    (h1 : ∀ c, l.head? = some c → isSpaceC c = false)
    (h2 : ∀ c, l.getLast? = some c → isSpaceC c = false) : pyStrip l = l := by
  unfold pyStrip
  rw [dropWhile_head_neg h1]
  rw [dropWhile_head_neg (fun c hc => h2 c (by rwa [List.head?_reverse] at hc))]
  exact List.reverse_reverse l

/-- MONTH_MAP with default 0 maps the lowered three-letter prefix of each
    full month name to its number, and month names contain no whitespace,
    comma, slash, dash or digit. -/
theorem monthName_facts (m : Nat) (h1 : 1 ≤ m) (h2 : m ≤ 12) :
    monthMapGet (lower3 (monthName m)) = (m : Int)
    ∧ monthName m ≠ []
    ∧ (∀ c ∈ monthName m, isSpaceC c = false ∧ c ≠ ',' ∧ c ≠ '/' ∧ c ≠ '-') := by
  interval_cases m <;> exact ⟨by decide, by decide, by decide⟩

/-! ## Date-shape lemmas for C3 -/


theorem renderNat_no_slash_dash (n : Nat) :
    (∀ c ∈ renderNat n, c ≠ '/') ∧ (∀ c ∈ renderNat n, c ≠ '-')
    ∧ (∀ c ∈ renderNat n, isSpaceC c = false) := by
  obtain ⟨_, h2, _⟩ := renderNat_spec n
  exact ⟨fun c hc => isDigitC_char_ne (h2 c hc) (by decide),
    fun c hc => isDigitC_char_ne (h2 c hc) (by decide),
    fun c hc => isSpaceC_eq_false_of_digit (h2 c hc)⟩

theorem parse_slash_render (a b c : Nat) :
    parse_user_date (renderNat a ++ '/' :: (renderNat b ++ '/' :: renderNat c))
      = slashFinish (renderNat a) (renderNat b) (renderNat c) := by
  obtain ⟨hA1, hA2, _⟩ := renderNat_spec a
  obtain ⟨hB1, hB2, _⟩ := renderNat_spec b
  obtain ⟨hC1, hC2, _⟩ := renderNat_spec c
  obtain ⟨hAs, hAd, hAw⟩ := renderNat_no_slash_dash a
  obtain ⟨hBs, hBd, hBw⟩ := renderNat_no_slash_dash b
  obtain ⟨hCs, hCd, hCw⟩ := renderNat_no_slash_dash c
  have hmem : ∀ x ∈ (renderNat a ++ '/' :: (renderNat b ++ '/' :: renderNat c)),
      isDigitC x = true ∨ x = '/' := by
    intro x hx
    simp only [List.mem_append, List.mem_cons] at hx
    rcases hx with h | h | h | h | h
    · exact Or.inl (hA2 x h)
    · exact Or.inr h
    · exact Or.inl (hB2 x h)
    · exact Or.inr h
    · exact Or.inl (hC2 x h)
  have hs_ne : (renderNat a ++ '/' :: (renderNat b ++ '/' :: renderNat c)) ≠ [] := by
    cases hA : renderNat a with
    | nil => exact absurd hA hA1
    | cons y ys => simp [hA]
  have hstrip : pyStrip (renderNat a ++ '/' :: (renderNat b ++ '/' :: renderNat c))
      = renderNat a ++ '/' :: (renderNat b ++ '/' :: renderNat c) := by
    apply pyStrip_all
    intro x hx
    rcases hmem x hx with h | h
    · exact isSpaceC_eq_false_of_digit h
    · subst h; decide
  have hcont : (renderNat a ++ '/' :: (renderNat b ++ '/' :: renderNat c)).contains '/'
      = true :=
    contains_of_mem (by simp)
  have hrepl : replaceChar '-' '/' (renderNat a ++ '/' :: (renderNat b ++ '/' :: renderNat c))
      = renderNat a ++ '/' :: (renderNat b ++ '/' :: renderNat c) := by
    apply replaceChar_not_mem
    intro x hx
    rcases hmem x hx with h | h
    · exact isDigitC_char_ne h (by decide)
    · subst h; decide
  have hsplit : splitOnChar '/' (renderNat a ++ '/' :: (renderNat b ++ '/' :: renderNat c))
      = [renderNat a, renderNat b, renderNat c] := by
    unfold splitOnChar
    rw [splitOnP_append _ (renderNat a) (fun x hx => by simp [hAs x hx]) '/' (by simp) _]
    rw [splitOnP_append _ (renderNat b) (fun x hx => by simp [hBs x hx]) '/' (by simp) _]
    rw [splitOnP_sepfree _ (renderNat c) (fun x hx => by simp [hCs x hx])]
  have hparts : slashParts (renderNat a ++ '/' :: (renderNat b ++ '/' :: renderNat c))
      = [renderNat a, renderNat b, renderNat c] := by
    unfold slashParts
    rw [hrepl, hsplit]
    simp only [List.map_cons, List.map_nil,
      pyStrip_all (fun x hx => isSpaceC_eq_false_of_digit (hA2 x hx)),
      pyStrip_all (fun x hx => isSpaceC_eq_false_of_digit (hB2 x hx)),
      pyStrip_all (fun x hx => isSpaceC_eq_false_of_digit (hC2 x hx))]
    simp [List.filter_cons, hA1, hB1, hC1]
  rw [parse_user_date]
  rw [if_neg hs_ne]
  simp only [hstrip, hcont, if_true, hparts]
  rw [if_neg hs_ne]
  -- leftover raw-empty check

theorem getLast?_mem_of_eq {l : List Char} {a : Char} (h : l.getLast? = some a) :
    a ∈ l := by
  have hm : a ∈ l.getLast? := by rw [h]; rfl
  obtain ⟨hne, heq⟩ := List.mem_getLast?_eq_getLast hm
  rw [heq]
  exact List.getLast_mem hne

theorem getLast?_append_right {pre Y : List Char} (hY : Y ≠ []) :
    (pre ++ Y).getLast? = Y.getLast? := by
  rw [List.getLast?_append]
  cases hYL : Y.getLast? with
  | none =>
      exact absurd (by simpa using hYL) hY
  | some yc => rfl

theorem parse_worded_render (m d y : Nat) (h1 : 1 ≤ m) (h2 : m ≤ 12) :
    parse_user_date (monthName m ++ ' ' :: (renderNat d ++ ',' :: ' ' :: renderNat y))
      = wordedParse (monthName m ++ ' ' :: (renderNat d ++ ',' :: ' ' :: renderNat y)) := by
  obtain ⟨hMmap, hM1, hMc⟩ := monthName_facts m h1 h2
  obtain ⟨hD1, hD2, _⟩ := renderNat_spec d
  obtain ⟨hY1, hY2, _⟩ := renderNat_spec y
  have hs_ne : (monthName m ++ ' ' :: (renderNat d ++ ',' :: ' ' :: renderNat y)) ≠ [] := by
    cases hM : monthName m with
    | nil => exact absurd hM hM1
    | cons x xs => simp [hM]
  have hstrip : pyStrip (monthName m ++ ' ' :: (renderNat d ++ ',' :: ' ' :: renderNat y))
      = monthName m ++ ' ' :: (renderNat d ++ ',' :: ' ' :: renderNat y) := by
    apply pyStrip_ends
    · intro c hc
      cases hM : monthName m with
      | nil => exact absurd hM hM1
      | cons x xs =>
          rw [hM] at hc
          simp only [List.cons_append, List.head?_cons, Option.some.injEq] at hc
          subst hc
          exact (hMc x (by rw [hM]; simp)).1
    · intro c hc
      have he : (monthName m ++ ' ' :: (renderNat d ++ ',' :: ' ' :: renderNat y))
          = (monthName m ++ ' ' :: renderNat d ++ [',', ' ']) ++ renderNat y := by
        simp
      rw [he, getLast?_append_right hY1] at hc
      exact isSpaceC_eq_false_of_digit (hY2 c (getLast?_mem_of_eq hc))
  have hcont : (monthName m ++ ' ' :: (renderNat d ++ ',' :: ' ' :: renderNat y)).contains '/'
      = false := by
    apply contains_eq_false
    intro c hc
    simp only [List.mem_append, List.mem_cons] at hc
    rcases hc with h | h | h | h | h | h
    · exact (hMc c h).2.2.1
    · subst h; decide
    · exact isDigitC_char_ne (hD2 c h) (by decide)
    · subst h; decide
    · subst h; decide
    · exact isDigitC_char_ne (hY2 c h) (by decide)
  rw [parse_user_date]
  rw [if_neg hs_ne]
  simp only [hstrip, hcont, Bool.false_eq_true, if_false]
  rw [if_neg hs_ne]

theorem wordedParse_render (m d y : Nat) (h1 : 1 ≤ m) (h2 : m ≤ 12) :
    wordedParse (monthName m ++ ' ' :: (renderNat d ++ ',' :: ' ' :: renderNat y))
      = (match mkDatetime (if (y : Int) < 100 then 2000 + (y : Int) else (y : Int))
            (m : Int) (d : Int) with
         | .ok dt => .ok (some dt)
         | .error _ => .ok none) := by
  obtain ⟨hMmap, hM1, hMc⟩ := monthName_facts m h1 h2
  obtain ⟨hD1, hD2, _⟩ := renderNat_spec d
  obtain ⟨hY1, hY2, _⟩ := renderNat_spec y
  have hM : replaceChar ',' ' ' (monthName m) = monthName m :=
    replaceChar_not_mem _ _ _ (fun c hc => (hMc c hc).2.1)
  have hD : replaceChar ',' ' ' (renderNat d) = renderNat d :=
    replaceChar_not_mem _ _ _ (fun c hc => isDigitC_char_ne (hD2 c hc) (by decide))
  have hY : replaceChar ',' ' ' (renderNat y) = renderNat y :=
    replaceChar_not_mem _ _ _ (fun c hc => isDigitC_char_ne (hY2 c hc) (by decide))
  simp only [replaceChar] at hM hD hY
  have hrepl : replaceChar ',' ' '
      (monthName m ++ ' ' :: (renderNat d ++ ',' :: ' ' :: renderNat y))
      = monthName m ++ ' ' :: (renderNat d ++ ' ' :: ' ' :: renderNat y) := by
    simp only [replaceChar, List.map_append, List.map_cons]
    rw [hM, hD, hY]
    norm_num
  have hstrip2 : pyStrip (monthName m ++ ' ' :: (renderNat d ++ ' ' :: ' ' :: renderNat y))
      = monthName m ++ ' ' :: (renderNat d ++ ' ' :: ' ' :: renderNat y) := by
    apply pyStrip_ends
    · intro c hc
      cases hMn : monthName m with
      | nil => exact absurd hMn hM1
      | cons x xs =>
          rw [hMn] at hc
          simp only [List.cons_append, List.head?_cons, Option.some.injEq] at hc
          subst hc
          exact (hMc x (by rw [hMn]; simp)).1
    · intro c hc
      have he : (monthName m ++ ' ' :: (renderNat d ++ ' ' :: ' ' :: renderNat y))
          = (monthName m ++ ' ' :: renderNat d ++ [' ', ' ']) ++ renderNat y := by
        simp
      rw [he, getLast?_append_right hY1] at hc
      exact isSpaceC_eq_false_of_digit (hY2 c (getLast?_mem_of_eq hc))
  have hsplit : splitOnP isSpaceC (monthName m ++ ' ' :: (renderNat d ++ ' ' :: ' ' :: renderNat y))
      = monthName m :: renderNat d :: [] :: [renderNat y] := by
    rw [splitOnP_append _ (monthName m) (fun c hc => (hMc c hc).1) ' ' (by decide) _]
    rw [splitOnP_append _ (renderNat d)
      (fun c hc => isSpaceC_eq_false_of_digit (hD2 c hc)) ' ' (by decide) _]
    rw [show splitOnP isSpaceC (' ' :: renderNat y)
        = [] :: splitOnP isSpaceC (renderNat y) from by
      simp [splitOnP, show isSpaceC ' ' = true from by decide]]
    rw [splitOnP_sepfree _ (renderNat y)
      (fun c hc => isSpaceC_eq_false_of_digit (hY2 c hc))]
  unfold wordedParse
  rw [hrepl, hstrip2]
  unfold splitWs
  rw [hsplit]
  simp only [List.filter_cons, List.filter_nil, ne_eq, hM1, hD1, hY1,
    not_false_eq_true, decide_True, not_true_eq_false, decide_False,
    if_true, if_false, Bool.false_eq_true]
  rw [hMmap]
  rw [pyInt_render d, pyInt_render y]

theorem parse_dash_render (a b c : Nat) :
    parse_user_date (renderNat a ++ '-' :: (renderNat b ++ '-' :: renderNat c))
      = .ok none := by
  obtain ⟨hA1, hA2, _⟩ := renderNat_spec a
  obtain ⟨hB1, hB2, _⟩ := renderNat_spec b
  obtain ⟨hC1, hC2, _⟩ := renderNat_spec c
  have hmem : ∀ x ∈ (renderNat a ++ '-' :: (renderNat b ++ '-' :: renderNat c)),
      isDigitC x = true ∨ x = '-' := by
    intro x hx
    simp only [List.mem_append, List.mem_cons] at hx
    rcases hx with h | h | h | h | h
    · exact Or.inl (hA2 x h)
    · exact Or.inr h
    · exact Or.inl (hB2 x h)
    · exact Or.inr h
    · exact Or.inl (hC2 x h)
  have hs_ne : (renderNat a ++ '-' :: (renderNat b ++ '-' :: renderNat c)) ≠ [] := by
    cases hA : renderNat a with
    | nil => exact absurd hA hA1
    | cons y ys => simp [hA]
  have hnosp : ∀ x ∈ (renderNat a ++ '-' :: (renderNat b ++ '-' :: renderNat c)),
      isSpaceC x = false := by
    intro x hx
    rcases hmem x hx with h | h
    · exact isSpaceC_eq_false_of_digit h
    · subst h; decide
  have hstrip : pyStrip (renderNat a ++ '-' :: (renderNat b ++ '-' :: renderNat c))
      = renderNat a ++ '-' :: (renderNat b ++ '-' :: renderNat c) :=
    pyStrip_all hnosp
  have hcont : (renderNat a ++ '-' :: (renderNat b ++ '-' :: renderNat c)).contains '/'
      = false := by
    apply contains_eq_false
    intro x hx
    rcases hmem x hx with h | h
    · exact isDigitC_char_ne h (by decide)
    · subst h; decide
  have hnocomma : replaceChar ',' ' ' (renderNat a ++ '-' :: (renderNat b ++ '-' :: renderNat c))
      = renderNat a ++ '-' :: (renderNat b ++ '-' :: renderNat c) := by
    apply replaceChar_not_mem
    intro x hx
    rcases hmem x hx with h | h
    · exact isDigitC_char_ne h (by decide)
    · subst h; decide
  rw [parse_user_date]
  rw [if_neg hs_ne]
  simp only [hstrip, hcont, Bool.false_eq_true, if_false]
  rw [if_neg hs_ne]
  unfold wordedParse
  rw [hnocomma, hstrip]
  unfold splitWs
  rw [splitOnP_sepfree _ _ hnosp]
  simp [List.filter_cons, hs_ne]

/-- C3 counterexample: the claim says the dash-delimited form parses like the
    slash form, but a dash-only triplet parses to none because the dash
    normalization runs only on inputs that already contain a slash. -/
theorem claim3_counterexample :
    parse_user_date "12-15-25".data = .ok none
    ∧ parse_user_date "12/15/25".data = .ok (some ⟨2025, 12, 15⟩)
    ∧ parse_user_date "12-15-25".data ≠ parse_user_date "12/15/25".data := by
  decide

/-- C3 (amended): for every valid month/day/year triple, the slash form with
    a two-digit year, the slash form with the four-digit year, and the worded
    form `Month D, YYYY` (also with a two-digit year) all parse to the same
    calendar date, with a two-digit year read as 2000 + year; the dash-only
    form `A-B-C` parses to none, since dashes are normalized to slashes only
    when a slash is already present. -/
theorem claim3_date_shapes (m d yy : Nat) (hm1 : 1 ≤ m) (hm2 : m ≤ 12)
    (hyy : yy ≤ 99) (hd1 : 1 ≤ d)
    (hd2 : (d : Int) ≤ daysInMonth (m : Int) (2000 + (yy : Int))) :
    parse_user_date (renderNat m ++ '/' :: (renderNat d ++ '/' :: renderNat yy))
      = .ok (some ⟨2000 + (yy : Int), (m : Int), (d : Int)⟩)
    ∧ parse_user_date (renderNat m ++ '/' :: (renderNat d ++ '/' :: renderNat (2000 + yy)))
      = .ok (some ⟨2000 + (yy : Int), (m : Int), (d : Int)⟩)
    ∧ parse_user_date (monthName m ++ ' ' :: (renderNat d ++ ',' :: ' ' :: renderNat (2000 + yy)))
      = .ok (some ⟨2000 + (yy : Int), (m : Int), (d : Int)⟩)
    ∧ parse_user_date (monthName m ++ ' ' :: (renderNat d ++ ',' :: ' ' :: renderNat yy))
      = .ok (some ⟨2000 + (yy : Int), (m : Int), (d : Int)⟩)
    ∧ parse_user_date (renderNat m ++ '-' :: (renderNat d ++ '-' :: renderNat yy))
      = .ok none := by
  have hcast : ((2000 + yy : Nat) : Int) = 2000 + (yy : Int) := by push_cast; ring
  have hdim : daysInMonth (m : Int) (2000 + (yy : Int)) ≤ 31 := by
    unfold daysInMonth
    split_ifs <;> omega
  have hdt : mkDatetime (2000 + (yy : Int)) (m : Int) (d : Int)
      = .ok ⟨2000 + (yy : Int), (m : Int), (d : Int)⟩ := by
    unfold mkDatetime
    rw [if_neg (by omega),
      if_pos ⟨by omega, by omega, by omega, by omega, by omega, hd2⟩]
  refine ⟨?_, ?_, ?_, ?_, parse_dash_render m d yy⟩
  · rw [parse_slash_render m d yy]
    simp only [slashFinish, pyInt_render]
    rw [if_pos (show ((yy : Nat) : Int) < 100 by omega)]
    rw [hdt]
  · rw [parse_slash_render m d (2000 + yy)]
    simp only [slashFinish, pyInt_render]
    rw [if_neg (show ¬ ((2000 + yy : Nat) : Int) < 100 by rw [hcast]; omega)]
    rw [hcast, hdt]
  · rw [parse_worded_render m d (2000 + yy) hm1 hm2,
      wordedParse_render m d (2000 + yy) hm1 hm2]
    rw [if_neg (show ¬ ((2000 + yy : Nat) : Int) < 100 by rw [hcast]; omega)]
    rw [hcast, hdt]
  · rw [parse_worded_render m d yy hm1 hm2, wordedParse_render m d yy hm1 hm2]
    rw [if_pos (show ((yy : Nat) : Int) < 100 by omega)]
    rw [hdt]

theorem claim3_witness :
    parse_user_date (renderNat 12 ++ '/' :: (renderNat 15 ++ '/' :: renderNat 25))
      = .ok (some ⟨2000 + (25 : Int), (12 : Int), (15 : Int)⟩)
    ∧ parse_user_date (renderNat 12 ++ '/' :: (renderNat 15 ++ '/' :: renderNat (2000 + 25)))
      = .ok (some ⟨2000 + (25 : Int), (12 : Int), (15 : Int)⟩)
    ∧ parse_user_date (monthName 12 ++ ' ' :: (renderNat 15 ++ ',' :: ' ' :: renderNat (2000 + 25)))
      = .ok (some ⟨2000 + (25 : Int), (12 : Int), (15 : Int)⟩)
    ∧ parse_user_date (monthName 12 ++ ' ' :: (renderNat 15 ++ ',' :: ' ' :: renderNat 25))
      = .ok (some ⟨2000 + (25 : Int), (12 : Int), (15 : Int)⟩)
    ∧ parse_user_date (renderNat 12 ++ '-' :: (renderNat 15 ++ '-' :: renderNat 25))
      = .ok none :=
  claim3_date_shapes 12 15 25 (by decide) (by decide) (by decide) (by decide)
    (by decide)

end BalanceApp
